/-
Verification of the claude-context-pack core (scanner.js + analyzer.js).

Shallow embedding conventions:
* JS strings (paths, patterns, entry names) are `List Char`; a literal is
  written `"text".data`.
* JS numbers holding byte/character/token counts are `Nat`; the one place the
  source can go negative (`totalTokens - bloatTokens`) is `Int`.
* Fallible filesystem primitives (`statSync`, `readFileSync`,
  `readdirSync`) are `Option`-valued inputs: `none` models the call throwing,
  which the source always catches.
* `Array.prototype.sort` (stable, comparator-based) is `sortBy`, a stable
  insertion sort by the boolean order induced by the comparator; all stable
  sorts by the same total preorder agree, so this is exact.
-/
import Mathlib

namespace ContextPack

/-! ## String helpers (JS string operations on `List Char`) -/

/-- Model of `s.replace(/\\/g, '/')` from `matchesPattern` (scanner.js:51-52). -/
def normalizeSep (s : List Char) : List Char :=
  s.map fun c => if c = '\\' then '/' else c

/-- Model of `s.split(c)` for a single-character separator (scanner.js:56).
`splitOnChar c ""` is `[""]`, as in JS. -/
def splitOnChar (c : Char) : List Char → List (List Char)
  | [] => [[]]
  | x :: xs =>
    if x = c then [] :: splitOnChar c xs
    else
      match splitOnChar c xs with
      | [] => [[x]]
      | h :: t => (x :: h) :: t

/-- Model of `hay.includes(needle)` (substring test, scanner.js:63). -/
def isSubList (needle : List Char) : List Char → Bool
  | [] => needle.isPrefixOf ([] : List Char)
  | c :: t => needle.isPrefixOf (c :: t) || isSubList needle t

/-! ## Pattern matcher (scanner.js 49-100) -/

/-- Matching of a single path segment against the anchored regex
`minimatch` builds: literal pieces separated by `*` gaps, where `.` was
escaped and `*` became `.*` (scanner.js:88-89).  The source applies this only
to slash-free ignore patterns whose remaining characters are regex-literal. -/
def globMatch (s p : List Char) : Bool :=
  match s, p with
  | [], [] => true
  | [], q :: qs => if q = '*' then globMatch [] qs else false
  | _ :: _, [] => false
  | c :: cst, q :: qs =>
    if q = '*' then globMatch (c :: cst) qs || globMatch cst (q :: qs)
    else c = q && globMatch cst qs
termination_by s.length + p.length
decreasing_by all_goals simp_arith

/-- Model of `minimatch(str, pattern)` (scanner.js:85-90). -/
def minimatch (s p : List Char) : Bool :=
  if p = ['*'] then true
  else if ¬ p.contains '*' then s == p
  else globMatch s p

/-- Model of `matchesPattern(relPath, pattern)` (scanner.js:49-80). -/
def matchesPattern (relPath pat : List Char) : Bool :=
  let normalized := normalizeSep relPath
  let p := normalizeSep pat
  if ¬ p.contains '/' then
    (splitOnChar '/' normalized).any fun part => minimatch part p
  else if ['*', '*', '/'].isPrefixOf p then
    let suf := p.drop 3
    suf.isSuffixOf normalized || isSubList ('/' :: suf) normalized
  else if ['/', '*'].isSuffixOf p then
    let pre := p.take (p.length - 2)
    (pre ++ ['/']).isPrefixOf normalized
  else if ['/', '*', '*'].isSuffixOf p then
    let pre := p.take (p.length - 3)
    (pre ++ ['/']).isPrefixOf normalized || normalized == pre
  else
    normalized == p || (p ++ ['/']).isPrefixOf normalized

/-- Model of `isIgnored(relPath, patterns)` (scanner.js:95-100). -/
def isIgnored (relPath : List Char) (patterns : List (List Char)) : Bool :=
  patterns.any fun pat => matchesPattern relPath pat

/-! ## Token estimator and binary classification (scanner.js 9-27, 105-107) -/

def CHARS_PER_TOKEN : Nat := 4

/-- Model of `estimateTokens(chars) = Math.ceil(chars / CHARS_PER_TOKEN)`
(scanner.js:105-107); on naturals the exact ceiling is `(n + 3) / 4`. -/
def estimateTokens (chars : Nat) : Nat :=
  (chars + (CHARS_PER_TOKEN - 1)) / CHARS_PER_TOKEN

/-- `DEFAULT_IGNORE` (scanner.js:12-16). -/
def DEFAULT_IGNORE : List (List Char) :=
  [".git".data, ".DS_Store".data, "Thumbs.db".data]

/-- `BINARY_EXTENSIONS` (scanner.js:19-27). -/
def BINARY_EXTENSIONS : List (List Char) :=
  [".png".data, ".jpg".data, ".jpeg".data, ".gif".data, ".webp".data,
   ".ico".data, ".bmp".data, ".tiff".data, ".svg".data,
   ".mp4".data, ".mp3".data, ".wav".data, ".ogg".data, ".mov".data,
   ".avi".data, ".mkv".data,
   ".pdf".data, ".zip".data, ".tar".data, ".gz".data, ".7z".data, ".rar".data,
   ".woff".data, ".woff2".data, ".ttf".data, ".eot".data, ".otf".data,
   ".exe".data, ".dll".data, ".so".data, ".dylib".data, ".bin".data,
   ".pyc".data, ".pyo".data, ".class".data,
   ".db".data, ".sqlite".data, ".sqlite3".data]

/-- Model of Node `path.extname` on a directory-entry name (no separators,
never `"."`/`".."`, which `readdirSync` omits): the substring from the last
`'.'`, or empty when there is no `'.'` or it is the leading character. -/
def extname (name : List Char) : List Char :=
  match name.reverse.findIdx? (fun c => c = '.') with
  | none => []
  | some j =>
    let i := name.length - 1 - j
    if i = 0 then [] else name.drop i

/-- `BINARY_EXTENSIONS.has(ext)` for an already-lowercased extension. -/
def isBinaryExt (ext : List Char) : Bool :=
  BINARY_EXTENSIONS.contains ext

/-- Composite of scanner.js:154-155: `path.extname(entry.name).toLowerCase()`
followed by the fixed-set membership test. -/
def isBinaryName (name : List Char) : Bool :=
  isBinaryExt ((extname name).map Char.toLower)

/-! ## Filesystem model and the walker (scanner.js 113-208) -/

/-- One directory entry as seen through `readdirSync(..., { withFileTypes:
true })` plus the outcomes of the per-entry syscalls the walker performs:
for a file, `statSize` is `some s` when `statSync` succeeds and `charCount`
is `some n` (the UTF-16 length of the decoded content) when `readFileSync`
succeeds; for a directory, `children` is `none` when its own `readdirSync`
throws.  `other` is a non-file non-directory entry (symlink, socket, ...). -/
inductive FSEntry where
  | file (name : List Char) (statSize : Option Nat) (charCount : Option Nat)
  | dir (name : List Char) (children : Option (List FSEntry))
  | other (name : List Char)

/-- `path.join(a, b)` / `path.relative`-style concatenation for already
normalized paths: the child of `a` named `b`. -/
def childRel (parentRel : List Char) (name : List Char) : List Char :=
  if parentRel = [] then name else parentRel ++ '/' :: name

/-- The record pushed for each kept file (scanner.js:177-185). -/
structure FileRecord where
  path : List Char
  relPath : List Char
  name : List Char
  ext : List Char
  size : Nat
  tokens : Nat
  isBinary : Bool
deriving DecidableEq

/-- The mutable state the `walk` closure accumulates (scanner.js:130-132). -/
structure WalkOut where
  files : List FileRecord
  ignoredCount : Nat
  binaryCount : Nat
deriving DecidableEq

mutual

/-- Body of the `for (const entry of entries)` loop (scanner.js:142-186) for
one entry situated under the relative path `parentRel`. -/
def walkEntry (pats : List (List Char)) (rootDir parentRel : List Char) :
    FSEntry → WalkOut
  | .file name statSize charCount =>
    let relPath := childRel parentRel name
    if isIgnored relPath pats then ⟨[], 1, 0⟩
    else
      let ext := (extname name).map Char.toLower
      let isBin := isBinaryExt ext
      let sizeTokens : Nat × Nat :=
        match statSize with
        | none => (0, 0)
        | some s =>
          if isBin then (s, 0)
          else
            match charCount with
            | none => (s, 0)
            | some n => (s, estimateTokens n)
      ⟨[⟨childRel rootDir relPath, relPath, name, ext,
          sizeTokens.1, sizeTokens.2, isBin⟩],
        0, if isBin then 1 else 0⟩
  | .dir name children =>
    let relPath := childRel parentRel name
    if isIgnored relPath pats then ⟨[], 1, 0⟩
    else
      match children with
      | none => ⟨[], 0, 0⟩
      | some entries => walkEntries pats rootDir relPath entries
  | .other name =>
    let relPath := childRel parentRel name
    if isIgnored relPath pats then ⟨[], 1, 0⟩ else ⟨[], 0, 0⟩

/-- `walk(dir)` over the listed entries of a directory whose relative path is
`parentRel` (scanner.js:134-188); output order matches the source's pushes. -/
def walkEntries (pats : List (List Char)) (rootDir parentRel : List Char) :
    List FSEntry → WalkOut
  | [] => ⟨[], 0, 0⟩
  | e :: rest =>
    let w1 := walkEntry pats rootDir parentRel e
    let w2 := walkEntries pats rootDir parentRel rest
    ⟨w1.files ++ w2.files, w1.ignoredCount + w2.ignoredCount,
      w1.binaryCount + w2.binaryCount⟩

end

/-- Result of `scan` (scanner.js:198-207). -/
structure ScanResult where
  files : List FileRecord
  totalTokens : Nat
  totalBytes : Nat
  ignoredCount : Nat
  binaryCount : Nat
  rootDir : List Char
  hasClaudeignore : Bool
  hasGitignore : Bool
deriving DecidableEq

/-- Comparator `(a, b) => b.tokens - a.tokens` (scanner.js:196) as the
boolean order `cmp(a, b) <= 0`. -/
def tokensDesc (a b : FileRecord) : Bool :=
  decide (b.tokens ≤ a.tokens)

/-- Ordered insertion for `sortBy`. -/
def insertSorted (le : α → α → Bool) (a : α) : List α → List α
  | [] => [a]
  | b :: l => if le a b then a :: b :: l else b :: insertSorted le a l

/-- Model of `Array.prototype.sort(cmp)`: a stable sort by the boolean
order `le a b = (cmp(a, b) <= 0)`.  JS mandates a stable sort, and every
stable sort by the same total preorder produces the same list, so stable
insertion sort is an exact model. -/
def sortBy (le : α → α → Bool) : List α → List α
  | [] => []
  | a :: l => insertSorted le a (sortBy le l)

/-- The combined rule set `allPatterns` (scanner.js:116-128): built-in
defaults, then `.gitignore` rules (unless `respectGitignore === false`),
then `.claudeignore` rules. -/
def combinedPatterns (claudeignorePatterns gitignorePatterns :
    Option (List (List Char))) (respectGitignore : Bool) :
    List (List Char) :=
  let userPatterns := match claudeignorePatterns with
    | some ps => ps
    | none => []
  let gitPatterns :=
    if respectGitignore then
      match gitignorePatterns with
      | some ps => ps
      | none => []
    else []
  DEFAULT_IGNORE ++ gitPatterns ++ userPatterns

/-- Model of `scan(rootDir, options)` (scanner.js:113-208).

The two ignore files are given as already parsed pattern lists:
`none` models `existsSync` returning `false` (`parseIgnoreFile` itself is
line splitting plus trimming and is not at issue in any claim); the root
directory's `readdirSync` outcome is `rootEntries` (`none` models the root
missing, not being a directory, or being unreadable, all of which make
`readdirSync` throw into the `catch` of scanner.js:138-140). -/
def scan (rootDir : List Char) (rootEntries : Option (List FSEntry))
    (claudeignorePatterns gitignorePatterns : Option (List (List Char)))
    (respectGitignore : Bool) : ScanResult :=
  let allPatterns :=
    combinedPatterns claudeignorePatterns gitignorePatterns respectGitignore
  let w := match rootEntries with
    | none => (⟨[], 0, 0⟩ : WalkOut)
    | some entries => walkEntries allPatterns rootDir [] entries
  let totalTokens := (w.files.map FileRecord.tokens).sum
  let totalBytes := (w.files.map FileRecord.size).sum
  ⟨sortBy tokensDesc w.files, totalTokens, totalBytes,
    w.ignoredCount, w.binaryCount, rootDir,
    claudeignorePatterns.isSome, gitignorePatterns.isSome⟩

/-! ## Bloat analyzer (analyzer.js) -/

inductive Priority where
  | critical
  | high
  | medium
  | low
deriving DecidableEq

inductive Category where
  | dependencies
  | build
  | coverage
  | python
  | lockfiles
  | logs
  | ide
  | os
  | test
  | cache
deriving DecidableEq

/-- Predicate of an anchored regex `^d(\/|$)`: the candidate equals `d` or
starts with `d/`. -/
def reTopDir (d : String) (rel : List Char) : Bool :=
  rel == d.data || (d.data ++ ['/']).isPrefixOf rel

/-- Predicate of an anchored whole-string regex `^d$`. -/
def reExact (d : String) (rel : List Char) : Bool :=
  rel == d.data

/-- Predicate of a start-unanchored regex `suf$`. -/
def reEndsWith (suf : String) (rel : List Char) : Bool :=
  suf.data.isSuffixOf rel

/-- Predicate of a start-unanchored regex `d(\/|$)`: `d` occurs followed by a
slash, or the candidate ends with `d`. -/
def reAnyDir (d : String) (rel : List Char) : Bool :=
  reEndsWith d rel || isSubList (d.data ++ ['/']) rel

/-- One `BLOAT_PATTERNS` table entry (analyzer.js:8-69).  `srcExt` is the
capture of the extension-detection regex `\\.(\w+)\$` applied to the rule's
own source text by `getIgnorePattern` (analyzer.js:151), precomputed per
rule since the table is constant. -/
structure BloatRule where
  pred : List Char → Bool
  category : Category
  reason : String
  priority : Priority
  srcExt : Option (List Char)

/-- The `BLOAT_PATTERNS` table (analyzer.js:8-69), in declared order; each
predicate is the rule's regex `.test` on the candidate relative path. -/
def BLOAT_PATTERNS : List BloatRule := [
  -- ^node_modules(\/|$)
  ⟨reTopDir "node_modules", .dependencies,
    "npm packages — never needed in context", .critical, none⟩,
  -- ^vendor(\/|$)
  ⟨reTopDir "vendor", .dependencies,
    "vendored dependencies — exclude entirely", .critical, none⟩,
  -- ^\.pnpm(\/|$)
  ⟨reTopDir ".pnpm", .dependencies,
    "pnpm store — never needed in context", .critical, none⟩,
  -- ^bower_components(\/|$)
  ⟨reTopDir "bower_components", .dependencies,
    "Bower dependencies — exclude entirely", .critical, none⟩,
  -- ^(dist|build|out|output)(\/|$)
  ⟨fun rel => reTopDir "dist" rel || reTopDir "build" rel ||
      reTopDir "out" rel || reTopDir "output" rel, .build,
    "compiled output — Claude reads source, not build", .critical, none⟩,
  -- ^\.next(\/|$)
  ⟨reTopDir ".next", .build, "Next.js build cache — not source code",
    .critical, none⟩,
  -- ^\.nuxt(\/|$)
  ⟨reTopDir ".nuxt", .build, "Nuxt.js build cache", .critical, none⟩,
  -- ^\.svelte-kit(\/|$)
  ⟨reTopDir ".svelte-kit", .build, "SvelteKit build cache", .critical, none⟩,
  -- ^\.vite(\/|$)
  ⟨reTopDir ".vite", .build, "Vite cache", .high, none⟩,
  -- ^\.turbo(\/|$)
  ⟨reTopDir ".turbo", .build, "Turborepo cache", .high, none⟩,
  -- ^\.parcel-cache(\/|$)
  ⟨reTopDir ".parcel-cache", .build, "Parcel build cache", .high, none⟩,
  -- ^storybook-static(\/|$)
  ⟨reTopDir "storybook-static", .build, "Storybook build output", .high, none⟩,
  -- ^coverage(\/|$)
  ⟨reTopDir "coverage", .coverage,
    "test coverage reports — generated data", .high, none⟩,
  -- ^\.nyc_output(\/|$)
  ⟨reTopDir ".nyc_output", .coverage, "NYC/Istanbul coverage output",
    .high, none⟩,
  -- ^htmlcov(\/|$)
  ⟨reTopDir "htmlcov", .coverage, "Python coverage HTML report", .high, none⟩,
  -- ^__pycache__(\/|$)
  ⟨reTopDir "__pycache__", .python, "Python bytecode cache", .critical, none⟩,
  -- \.pyc$
  ⟨reEndsWith ".pyc", .python, "compiled Python bytecode", .critical,
    some "pyc".data⟩,
  -- ^(venv|\.venv|env|\.env)(\/|$)
  ⟨fun rel => reTopDir "venv" rel || reTopDir ".venv" rel ||
      reTopDir "env" rel || reTopDir ".env" rel, .python,
    "Python virtual environment — use requirements.txt instead",
    .critical, none⟩,
  -- ^\.tox(\/|$)
  ⟨reTopDir ".tox", .python, "tox testing environments", .high, none⟩,
  -- \.egg-info(\/|$)
  ⟨reAnyDir ".egg-info", .python, "Python package build metadata",
    .high, none⟩,
  -- ^package-lock\.json$
  ⟨reExact "package-lock.json", .lockfiles,
    "npm lock file — thousands of lines of generated JSON", .high,
    some "json".data⟩,
  -- ^yarn\.lock$
  ⟨reExact "yarn.lock", .lockfiles, "Yarn lock file — large generated file",
    .high, some "lock".data⟩,
  -- ^pnpm-lock\.yaml$
  ⟨reExact "pnpm-lock.yaml", .lockfiles,
    "pnpm lock file — large generated file", .high, some "yaml".data⟩,
  -- ^Cargo\.lock$
  ⟨reExact "Cargo.lock", .lockfiles, "Rust lock file — large generated file",
    .medium, some "lock".data⟩,
  -- ^Gemfile\.lock$
  ⟨reExact "Gemfile.lock", .lockfiles, "Ruby lock file — large generated file",
    .medium, some "lock".data⟩,
  -- ^composer\.lock$
  ⟨reExact "composer.lock", .lockfiles,
    "PHP Composer lock file — large generated file", .medium,
    some "lock".data⟩,
  -- ^poetry\.lock$
  ⟨reExact "poetry.lock", .lockfiles,
    "Poetry lock file — large generated file", .medium, some "lock".data⟩,
  -- ^uv\.lock$
  ⟨reExact "uv.lock", .lockfiles, "uv lock file — large generated file",
    .medium, some "lock".data⟩,
  -- ^(logs?|\.logs?)(\/|$)
  ⟨fun rel => reTopDir "log" rel || reTopDir "logs" rel ||
      reTopDir ".log" rel || reTopDir ".logs" rel, .logs,
    "log files — runtime output, not source", .high, none⟩,
  -- \.log$
  ⟨reEndsWith ".log", .logs, "log file", .high, some "log".data⟩,
  -- ^\.idea(\/|$)
  ⟨reTopDir ".idea", .ide, "JetBrains IDE config — not project code",
    .medium, none⟩,
  -- ^\.vscode(\/|$)
  ⟨reTopDir ".vscode", .ide, "VS Code config — not project code",
    .medium, none⟩,
  -- ^\.cursor(\/|$)
  ⟨reTopDir ".cursor", .ide, "Cursor editor config", .medium, none⟩,
  -- ^\.DS_Store$
  ⟨reExact ".DS_Store", .os, "macOS metadata file", .medium,
    some "DS_Store".data⟩,
  -- ^Thumbs\.db$
  ⟨reExact "Thumbs.db", .os, "Windows thumbnail cache", .medium,
    some "db".data⟩,
  -- ^__snapshots__(\/|$)
  ⟨reTopDir "__snapshots__", .test, "Jest snapshots — often very large",
    .medium, none⟩,
  -- ^fixtures?(\/|$)
  ⟨fun rel => reTopDir "fixture" rel || reTopDir "fixtures" rel, .test,
    "test fixtures — usually large data files", .low, none⟩,
  -- ^\.cache(\/|$)
  ⟨reTopDir ".cache", .cache, "generic cache directory", .high, none⟩,
  -- ^tmp(\/|$)
  ⟨reTopDir "tmp", .cache, "temp files", .high, none⟩,
  -- ^\.temp(\/|$)
  ⟨reTopDir ".temp", .cache, "temp files", .high, none⟩,
  -- ^public\/build(\/|$)
  ⟨reTopDir "public/build", .build, "compiled public assets", .high, none⟩]

/-- `LARGE_FILE_THRESHOLD` (analyzer.js:71). -/
def LARGE_FILE_THRESHOLD : Nat := 10 * 1024

/-- The inner `for (const bp of BLOAT_PATTERNS) ... break` loop
(analyzer.js:87-107): the first matching rule together with its index, which
serves as the `Map` key since the rule source texts are pairwise distinct. -/
def firstMatch (rules : List BloatRule) (rel : List Char) :
    Option (Nat × BloatRule) :=
  match rules with
  | [] => none
  | r :: rest =>
    if r.pred rel then some (0, r)
    else (firstMatch rest rel).map fun p => (p.1 + 1, p.2)

/-- One aggregated suggestion (analyzer.js:92-99). -/
structure Suggestion where
  pattern : List Char
  reason : String
  category : Category
  priority : Priority
  tokenSavings : Nat
  fileCount : Nat
deriving DecidableEq

/-- `getIgnorePattern(relPath, bpPattern)` (analyzer.js:145-156). -/
def getIgnorePattern (relPath : List Char) (r : BloatRule) : List Char :=
  let parts := splitOnChar '/' (normalizeSep relPath)
  let topLevel := parts.headD []
  match r.srcExt with
  | some e => '*' :: '.' :: e
  | none => topLevel ++ (if 1 < parts.length then ['/'] else [])

/-- A `{ ...file, bloatReason, bloatCategory }` record (analyzer.js:104). -/
structure BloatFile where
  file : FileRecord
  bloatReason : String
  bloatCategory : Category
deriving DecidableEq

/-- `Map.get`/`Map.set` step for one matched file (analyzer.js:90-103): if
the key is present its entry is updated in place, otherwise a fresh entry
(initialized to `init`, which has zero counters) is appended, and in both
cases `tokenSavings += tokens` and `fileCount += 1`. -/
def bumpSugg (i : Nat) (init : Suggestion) (tokens : Nat) :
    List (Nat × Suggestion) → List (Nat × Suggestion)
  | [] => [(i, { init with tokenSavings := init.tokenSavings + tokens,
                           fileCount := init.fileCount + 1 })]
  | (k, s) :: rest =>
    if k = i then
      (k, { s with tokenSavings := s.tokenSavings + tokens,
                   fileCount := s.fileCount + 1 }) :: rest
    else (k, s) :: bumpSugg i init tokens rest

/-- The accumulating state of the `for (const file of files)` loop
(analyzer.js:80-113). -/
structure AState where
  bloatFiles : List BloatFile
  largeFiles : List FileRecord
  suggestions : List (Nat × Suggestion)

/-- Body of the per-file loop (analyzer.js:84-113). -/
def analyzeStep (st : AState) (f : FileRecord) : AState :=
  match firstMatch BLOAT_PATTERNS f.relPath with
  | some (i, bp) =>
    let init : Suggestion :=
      ⟨getIgnorePattern f.relPath bp, bp.reason, bp.category, bp.priority,
        0, 0⟩
    ⟨st.bloatFiles ++ [⟨f, bp.reason, bp.category⟩], st.largeFiles,
      bumpSugg i init f.tokens st.suggestions⟩
  | none =>
    if !f.isBinary && decide (LARGE_FILE_THRESHOLD < f.size) then
      ⟨st.bloatFiles, st.largeFiles ++ [f], st.suggestions⟩
    else st

/-- `priorityOrder` (analyzer.js:117). -/
def priorityOrder : Priority → Nat
  | .critical => 0
  | .high => 1
  | .medium => 2
  | .low => 3

/-- The suggestion comparator of analyzer.js:116-121 as the boolean order
`cmp(a, b) <= 0`: ascending priority tier, then descending token savings. -/
def suggLE (a b : Suggestion) : Bool :=
  decide (priorityOrder a.priority < priorityOrder b.priority) ||
    (priorityOrder a.priority == priorityOrder b.priority &&
      decide (b.tokenSavings ≤ a.tokenSavings))

/-- The analysis snapshot returned by `analyze` (analyzer.js:129-139). -/
structure Analysis where
  suggestions : List Suggestion
  bloatFiles : List BloatFile
  largeFiles : List FileRecord
  bloatTokens : Nat
  cleanTokens : Int
  totalTokens : Nat
  reductionPercent : Int
deriving DecidableEq

/-- The classifier pass of `analyze`: the final state of the per-file loop
(analyzer.js:84-113) started from empty accumulators. -/
def analyzeState (files : List FileRecord) : AState :=
  files.foldl analyzeStep ⟨[], [], []⟩

/-- Model of `analyze(scanResult)` (analyzer.js:77-140). -/
def analyze (sr : ScanResult) : Analysis :=
  let st := analyzeState sr.files
  let sortedSuggestions := sortBy suggLE (st.suggestions.map Prod.snd)
  let largeSorted := sortBy tokensDesc st.largeFiles
  let bloatTokens : Nat := (st.bloatFiles.map fun b => b.file.tokens).sum
  let cleanTokens : Int := (sr.totalTokens : Int) - (bloatTokens : Int)
  ⟨sortedSuggestions, st.bloatFiles, largeSorted.take 20, bloatTokens,
    cleanTokens, sr.totalTokens,
    if 0 < sr.totalTokens then
      round ((bloatTokens : ℚ) / (sr.totalTokens : ℚ) * 100)
    else 0⟩

/-! ## Claim-side auxiliary notions -/

/-- Spec-side notion for C3 (not taken from the source): `rel` is a direct
child of the directory `pre`, exactly one nonempty path segment below it. -/
def isDirectChild (pre rel : List Char) : Bool :=
  (pre ++ ['/']).isPrefixOf rel &&
    !(rel.drop (pre.length + 1)).contains '/' &&
    decide (rel.drop (pre.length + 1) ≠ [])

/-- Association-list lookup on the suggestion map, keyed by rule index. -/
def lookupSugg (l : List (Nat × Suggestion)) (i : Nat) : Option Suggestion :=
  match l with
  | [] => none
  | (k, s) :: rest => if k = i then some s else lookupSugg rest i

/-- The files whose first matching bloat rule is the rule at index `i`:
C5's "contributing set" of the suggestion keyed by rule `i`. -/
def contributingSet (files : List FileRecord) (i : Nat) : List FileRecord :=
  files.filter fun f =>
    decide ((firstMatch BLOAT_PATTERNS f.relPath).map Prod.fst = some i)

mutual

/-- Sanity condition on modelled directory trees: entry names never contain
the path separator (true of every name `readdirSync` can return). -/
def entryNamesOk : FSEntry → Bool
  | .file n _ _ => !n.contains '/'
  | .other n => !n.contains '/'
  | .dir n none => !n.contains '/'
  | .dir n (some entries) => !n.contains '/' && entriesNamesOk entries

/-- `entryNamesOk` over a listing. -/
def entriesNamesOk : List FSEntry → Bool
  | [] => true
  | e :: rest => entryNamesOk e && entriesNamesOk rest

end

/-! ## General lemmas -/

theorem toNat_ofNat_valid (n : Nat) (h : n < 55296) :
    (Char.ofNat n).toNat = n := by
  have hv : Nat.isValidChar n := Or.inl h
  rw [Char.ofNat, dif_pos hv]
  simp [Char.ofNatAux, Char.toNat, UInt32.toNat]

theorem char_toLower_toNat (c : Char) :
    (Char.toLower c).toNat =
      if 65 ≤ c.toNat ∧ c.toNat ≤ 90 then c.toNat + 32 else c.toNat := by
  simp only [Char.toLower, ge_iff_le]
  by_cases h : 65 ≤ c.toNat ∧ c.toNat ≤ 90
  · rw [if_pos h, if_pos h, toNat_ofNat_valid _ (by omega)]
  · rw [if_neg h, if_neg h]

theorem char_toNat_inj {a b : Char} (h : a.toNat = b.toNat) : a = b :=
  Char.ext (UInt32.ext h)

theorem char_toLower_idem (c : Char) :
    Char.toLower (Char.toLower c) = Char.toLower c := by
  apply char_toNat_inj
  rw [char_toLower_toNat, char_toLower_toNat]
  split_ifs <;> omega

theorem char_toLower_eq_dot_iff (c : Char) :
    Char.toLower c = '.' ↔ c = '.' := by
  constructor
  · intro h
    have h2 := congrArg Char.toNat h
    rw [char_toLower_toNat] at h2
    have hdot : ('.' : Char).toNat = 46 := by decide
    rw [hdot] at h2
    apply char_toNat_inj
    rw [hdot]
    split at h2 <;> omega
  · intro h
    subst h
    decide

theorem normalizeSep_eq_self (s : List Char) (h : ¬ '\\' ∈ s) :
    normalizeSep s = s := by
  unfold normalizeSep
  have hc : ∀ c ∈ s, (if c = '\\' then '/' else c) = c := fun c hcs => by
    rw [if_neg]
    intro hcc
    exact h (hcc ▸ hcs)
  rw [List.map_congr_left hc]
  exact List.map_id s

theorem dot_findIdx_map_toLower (l : List Char) :
    List.findIdx? (fun c => decide (c = '.')) (l.map Char.toLower) =
      List.findIdx? (fun c => decide (c = '.')) l := by
  rw [List.findIdx?_map]
  congr 1
  funext c
  simp only [Function.comp]
  rw [decide_eq_decide]
  exact char_toLower_eq_dot_iff c

theorem extname_map_toLower (n : List Char) :
    extname (n.map Char.toLower) = (extname n).map Char.toLower := by
  unfold extname
  rw [← List.map_reverse, dot_findIdx_map_toLower, List.length_map]
  cases List.findIdx? (fun c => decide (c = '.')) n.reverse with
  | none => simp
  | some j =>
    by_cases hi : n.length - 1 - j = 0
    · simp [hi]
    · simp [hi, List.map_drop]

/-! ## Sorting lemmas for `sortBy` -/

theorem insertSorted_perm (le : α → α → Bool) (a : α) (l : List α) :
    List.Perm (insertSorted le a l) (a :: l) := by
  induction l with
  | nil => rfl
  | cons b t ih =>
    unfold insertSorted
    split
    · rfl
    · exact (List.Perm.cons b ih).trans (List.Perm.swap a b t)

theorem sortBy_perm (le : α → α → Bool) (l : List α) :
    List.Perm (sortBy le l) l := by
  induction l with
  | nil => rfl
  | cons a t ih =>
    exact (insertSorted_perm le a (sortBy le t)).trans (List.Perm.cons a ih)

theorem mem_sortBy {le : α → α → Bool} {a : α} {l : List α} :
    a ∈ sortBy le l ↔ a ∈ l :=
  (sortBy_perm le l).mem_iff

theorem mem_insertSorted {le : α → α → Bool} {x a : α} {l : List α} :
    x ∈ insertSorted le a l ↔ x = a ∨ x ∈ l := by
  rw [(insertSorted_perm le a l).mem_iff, List.mem_cons]

theorem pairwise_insertSorted (le : α → α → Bool)
    (htrans : ∀ a b c, le a b = true → le b c = true → le a c = true)
    (htot : ∀ a b, le a b = true ∨ le b a = true)
    (a : α) (l : List α) (h : l.Pairwise (le · · = true)) :
    (insertSorted le a l).Pairwise (le · · = true) := by
  induction l with
  | nil => simp [insertSorted]
  | cons b t ih =>
    rw [List.pairwise_cons] at h
    unfold insertSorted
    split
    case isTrue hab =>
      rw [List.pairwise_cons]
      refine ⟨?_, List.pairwise_cons.mpr h⟩
      intro x hx
      rcases List.mem_cons.mp hx with hx | hx
      · exact hx ▸ hab
      · exact htrans a b x hab (h.1 x hx)
    case isFalse hab =>
      rw [List.pairwise_cons]
      refine ⟨?_, ih h.2⟩
      intro x hx
      rcases mem_insertSorted.mp hx with hx | hx
      · rw [hx]
        rcases htot a b with hba | hba
        · exact absurd hba hab
        · exact hba
      · exact h.1 x hx

theorem pairwise_sortBy (le : α → α → Bool)
    (htrans : ∀ a b c, le a b = true → le b c = true → le a c = true)
    (htot : ∀ a b, le a b = true ∨ le b a = true) (l : List α) :
    (sortBy le l).Pairwise (le · · = true) := by
  induction l with
  | nil => simp [sortBy]
  | cons a t ih => exact pairwise_insertSorted le htrans htot a _ ih

/-! ## C10 — case-insensitive binary classification -/

/-- C10: the binary-extension classification used by the walker is
case-insensitive: lowercasing a file name does not change `isBinaryName`,
and concretely `IMAGE.PNG` is classified binary exactly as `image.png` is. -/
theorem claim10_binary_case_insensitive :
    (∀ name : List Char,
      isBinaryName (name.map Char.toLower) = isBinaryName name) ∧
    isBinaryName "IMAGE.PNG".data = true ∧
    isBinaryName "image.png".data = true := by
  refine ⟨?_, by decide, by decide⟩
  intro name
  unfold isBinaryName
  rw [extname_map_toLower, List.map_map]
  congr 1
  apply List.map_congr_left
  intro a _
  exact char_toLower_idem a

/-! ## C9 — token estimation is ceiling division by 4 -/

/-- C9: `estimateTokens n` equals the exact ceiling of `n / 4`, and a kept
non-binary file whose stat and content read both succeed is recorded with
`tokens = estimateTokens charCount`. -/
theorem claim9_estimateTokens_ceil :
    (∀ n : Nat, (estimateTokens n : ℤ) = ⌈(n : ℚ) / 4⌉) ∧
    (∀ pats rootDir parentRel name (s chars : Nat),
      isIgnored (childRel parentRel name) pats = false →
      isBinaryName name = false →
      (walkEntry pats rootDir parentRel
          (.file name (some s) (some chars))).files =
        [⟨childRel rootDir (childRel parentRel name),
          childRel parentRel name, name,
          (extname name).map Char.toLower, s, estimateTokens chars,
          false⟩]) := by
  constructor
  · intro n
    have h1 : estimateTokens n * 4 ≤ n + 3 := by
      unfold estimateTokens CHARS_PER_TOKEN
      omega
    have h2 : n ≤ estimateTokens n * 4 := by
      unfold estimateTokens CHARS_PER_TOKEN
      omega
    symm
    rw [Int.ceil_eq_iff]
    constructor
    · rw [lt_div_iff₀ (by norm_num : (0:ℚ) < 4)]
      have hc : ((estimateTokens n : ℚ)) * 4 ≤ (n : ℚ) + 3 := by
        exact_mod_cast h1
      push_cast
      linarith
    · rw [div_le_iff₀ (by norm_num : (0:ℚ) < 4)]
      exact_mod_cast h2
  · intro pats rootDir parentRel name s chars hig hbin
    unfold isBinaryName at hbin
    simp [walkEntry, hig, hbin]

/-- Witness for C9 at a concrete readable ten-character text file. -/
theorem claim9_witness :
    isIgnored (childRel [] "a.txt".data) [] = false ∧
    isBinaryName "a.txt".data = false ∧
    (walkEntry [] "r".data [] (.file "a.txt".data (some 10) (some 10))).files =
      [⟨childRel "r".data (childRel [] "a.txt".data),
        childRel [] "a.txt".data, "a.txt".data,
        (extname "a.txt".data).map Char.toLower, 10, estimateTokens 10,
        false⟩] :=
  ⟨by decide, by decide,
    claim9_estimateTokens_ceil.2 [] "r".data [] "a.txt".data 10 10
      (by decide) (by decide)⟩

/-! ## C1 — an invalid root is not surfaced as an error -/

/-- C1 counterexample: scanning a root whose `readdirSync` fails (missing,
unreadable, or not a directory) does not fail; it returns the very same
normal result as scanning an existing empty directory, and an empty
inventory — no error is surfaced to the caller. -/
theorem claim1_counterexample :
    scan "r".data none none none true =
      scan "r".data (some []) none none true ∧
    (scan "r".data none none none true).files = [] := by
  decide

/-- C1 amended: an invalid root is swallowed like every other I/O failure:
`scan` returns a normal result with an empty inventory and zero counters,
and no error at all propagates out of the walking, matching, estimating, or
classifying logic. -/
theorem claim1_amended (rootDir : List Char)
    (ci gi : Option (List (List Char))) (rg : Bool) :
    scan rootDir none ci gi rg =
      ⟨[], 0, 0, 0, 0, rootDir, ci.isSome, gi.isSome⟩ := by
  simp [scan, sortBy]

/-! ## C3 — the trailing `/*` rule form -/

/-- C3 counterexample: the rule `src/*` matches `src/a/b`, which is two
segments below `src` and therefore not a direct child, refuting "matches if
and only if the candidate is a direct child". -/
theorem claim3_counterexample :
    matchesPattern "src/a/b".data "src/*".data = true ∧
    isDirectChild "src".data "src/a/b".data = false := by
  decide

/-- C3 amended: a rule of the form `pre` followed by slash-star (with
separators already normalized and the pattern not of the leading
double-star form) matches exactly the strict descendants of `pre` at every
depth — all candidates having `pre ++ "/"` as a prefix — not only direct
children. -/
theorem claim3_amended (pre rel : List Char)
    (hb1 : ¬ '\\' ∈ pre) (hb2 : ¬ '\\' ∈ rel)
    (hns : ['*', '*', '/'].isPrefixOf (pre ++ ['/', '*']) = false) :
    matchesPattern rel (pre ++ ['/', '*']) = true ↔
      (pre ++ ['/']) <+: rel := by
  have hp : normalizeSep (pre ++ ['/', '*']) = pre ++ ['/', '*'] := by
    apply normalizeSep_eq_self
    intro hmem
    rcases List.mem_append.mp hmem with h | h
    · exact hb1 h
    · simp at h
  have hrel : normalizeSep rel = rel := normalizeSep_eq_self rel hb2
  have hcontains : (pre ++ ['/', '*']).contains '/' = true := by
    apply List.elem_iff.mpr
    exact List.mem_append.mpr (Or.inr (by simp))
  have hsuf : List.isSuffixOf ['/', '*'] (pre ++ ['/', '*']) = true :=
    List.isSuffixOf_iff_suffix.mpr (List.suffix_append pre ['/', '*'])
  have hlen : (pre ++ ['/', '*']).length - 2 = pre.length := by
    simp
  have htake : (pre ++ ['/', '*']).take ((pre ++ ['/', '*']).length - 2)
      = pre := by
    rw [hlen]
    exact List.take_left pre ['/', '*']
  simp only [matchesPattern, hp, hrel, hcontains, hns, hsuf, htake,
    not_true, if_false, Bool.false_eq_true, if_true]
  rw [List.isPrefixOf_iff_prefix]

/-- Witness for C3 amended: the rule `src/*` and the deep descendant
`src/a/b`. -/
theorem claim3_amended_witness :
    (¬ '\\' ∈ "src".data) ∧ (¬ '\\' ∈ "src/a/b".data) ∧
    (['*', '*', '/'].isPrefixOf ("src".data ++ ['/', '*']) = false) ∧
    (matchesPattern "src/a/b".data ("src".data ++ ['/', '*']) = true ↔
      ("src".data ++ ['/']) <+: "src/a/b".data) :=
  ⟨by decide, by decide, by decide,
    claim3_amended "src".data "src/a/b".data (by decide) (by decide)
      (by decide)⟩

/-! ## C2 — what happens on per-entry I/O failure -/

/-- C2 counterexample: a file whose `statSync` (and hence content read)
fails is not treated as nonexistent: the scan still records a FileRecord
for it, with size 0 and tokens 0. -/
theorem claim2_counterexample :
    (scan "r".data (some [.file "a.txt".data none none])
        none none true).files =
      [⟨"r/a.txt".data, "a.txt".data, "a.txt".data, ".txt".data, 0, 0,
        false⟩] := by
  decide

/-- C2 amended: per-entry I/O failures are swallowed and traversal
continues, but a failing file entry still contributes a FileRecord: a stat
failure records the file with size 0 and tokens 0, a content-read failure
records the stat size with tokens 0; only a directory entry whose readdir
fails contributes nothing. -/
theorem claim2_amended :
    (∀ pats rootDir parentRel name charCount,
      isIgnored (childRel parentRel name) pats = false →
      (walkEntry pats rootDir parentRel (.file name none charCount)).files =
        [⟨childRel rootDir (childRel parentRel name),
          childRel parentRel name, name,
          (extname name).map Char.toLower, 0, 0, isBinaryName name⟩]) ∧
    (∀ pats rootDir parentRel name (s : Nat),
      isIgnored (childRel parentRel name) pats = false →
      isBinaryName name = false →
      (walkEntry pats rootDir parentRel (.file name (some s) none)).files =
        [⟨childRel rootDir (childRel parentRel name),
          childRel parentRel name, name,
          (extname name).map Char.toLower, s, 0, false⟩]) ∧
    (∀ pats rootDir parentRel name,
      (walkEntry pats rootDir parentRel (.dir name none)).files = []) ∧
    (∀ pats rootDir parentRel e rest,
      walkEntries pats rootDir parentRel (e :: rest) =
        ⟨(walkEntry pats rootDir parentRel e).files ++
            (walkEntries pats rootDir parentRel rest).files,
          (walkEntry pats rootDir parentRel e).ignoredCount +
            (walkEntries pats rootDir parentRel rest).ignoredCount,
          (walkEntry pats rootDir parentRel e).binaryCount +
            (walkEntries pats rootDir parentRel rest).binaryCount⟩) := by
  refine ⟨?_, ?_, ?_, ?_⟩
  · intro pats rootDir parentRel name charCount hig
    simp [walkEntry, hig, isBinaryName]
  · intro pats rootDir parentRel name s hig hbin
    unfold isBinaryName at hbin
    simp [walkEntry, hig, hbin]
  · intro pats rootDir parentRel name
    by_cases hig : isIgnored (childRel parentRel name) pats = true <;>
      simp [walkEntry, hig]
  · intro pats rootDir parentRel e rest
    rfl

/-- Witness for C2 amended at a concrete stat-failing text file. -/
theorem claim2_amended_witness :
    isIgnored (childRel [] "a.txt".data) [] = false ∧
    (walkEntry [] "r".data [] (.file "a.txt".data none none)).files =
      [⟨childRel "r".data (childRel [] "a.txt".data),
        childRel [] "a.txt".data, "a.txt".data,
        (extname "a.txt".data).map Char.toLower, 0, 0,
        isBinaryName "a.txt".data⟩] :=
  ⟨by decide, claim2_amended.1 [] "r".data [] "a.txt".data none (by decide)⟩

/-! ## C7 — binary files carry zero tokens -/

mutual

theorem walkEntry_binary_zero (pats : List (List Char))
    (rootDir parentRel : List Char) :
    ∀ (e : FSEntry), ∀ f ∈ (walkEntry pats rootDir parentRel e).files,
      f.isBinary = true → f.tokens = 0
  | .file name st ct => by
    intro f hf hbin
    by_cases hig : isIgnored (childRel parentRel name) pats = true
    · simp [walkEntry, hig] at hf
    · simp [walkEntry, hig] at hf
      subst hf
      cases st with
      | none => rfl
      | some s => simp_all
  | .dir name none => by
    intro f hf hbin
    by_cases hig : isIgnored (childRel parentRel name) pats = true <;>
      simp [walkEntry, hig] at hf
  | .dir name (some es) => by
    intro f hf hbin
    by_cases hig : isIgnored (childRel parentRel name) pats = true
    · simp [walkEntry, hig] at hf
    · simp only [walkEntry, hig, Bool.false_eq_true, if_false] at hf
      exact walkEntries_binary_zero pats rootDir
        (childRel parentRel name) es f (by simpa using hf) hbin
  | .other name => by
    intro f hf hbin
    by_cases hig : isIgnored (childRel parentRel name) pats = true <;>
      simp [walkEntry, hig] at hf

theorem walkEntries_binary_zero (pats : List (List Char))
    (rootDir parentRel : List Char) :
    ∀ (es : List FSEntry),
      ∀ f ∈ (walkEntries pats rootDir parentRel es).files,
        f.isBinary = true → f.tokens = 0
  | [] => by
    intro f hf hbin
    simp [walkEntries] at hf
  | e :: rest => by
    intro f hf hbin
    unfold walkEntries at hf
    simp only [List.mem_append] at hf
    rcases hf with hf | hf
    · exact walkEntry_binary_zero pats rootDir parentRel e f hf hbin
    · exact walkEntries_binary_zero pats rootDir parentRel rest f hf hbin

end

theorem sum_tokens_split (l : List FileRecord) :
    ((l.map FileRecord.tokens)).sum =
      (((l.filter fun f => f.isBinary).map FileRecord.tokens)).sum +
        (((l.filter fun f => !f.isBinary).map FileRecord.tokens)).sum := by
  induction l with
  | nil => simp
  | cons f t ih =>
    by_cases hb : f.isBinary <;> simp [hb, ih] <;> omega

theorem sortBy_binary_sum (l : List FileRecord)
    (hz : ∀ f ∈ l, f.isBinary = true → f.tokens = 0) :
    (l.map FileRecord.tokens).sum =
      (((sortBy tokensDesc l).filter fun f => !f.isBinary).map
        FileRecord.tokens).sum := by
  have hperm :=
    ((sortBy_perm tokensDesc l).filter fun f => !f.isBinary).map
      FileRecord.tokens
  rw [hperm.sum_eq, sum_tokens_split l]
  have hzero : ((l.filter fun f => f.isBinary).map FileRecord.tokens).sum
      = 0 := by
    apply List.sum_eq_zero
    intro x hx
    rcases List.mem_map.mp hx with ⟨f, hf, hfx⟩
    rcases List.mem_filter.mp hf with ⟨hfm, hfb⟩
    exact hfx ▸ hz f hfm hfb
  rw [hzero]
  omega

/-- C7: every binary-classified FileRecord produced by a scan has zero
tokens, and the token total consequently counts only non-binary files. -/
theorem claim7_binary_zero_tokens (rootDir : List Char)
    (rootEntries : Option (List FSEntry))
    (ci gi : Option (List (List Char))) (rg : Bool) :
    (∀ f ∈ (scan rootDir rootEntries ci gi rg).files,
      f.isBinary = true → f.tokens = 0) ∧
    (scan rootDir rootEntries ci gi rg).totalTokens =
      (((scan rootDir rootEntries ci gi rg).files.filter
          fun f => !f.isBinary).map FileRecord.tokens).sum := by
  have hmem : ∀ f ∈ (scan rootDir rootEntries ci gi rg).files,
      f.isBinary = true → f.tokens = 0 := by
    intro f hf hbin
    simp only [scan] at hf
    rw [mem_sortBy] at hf
    cases rootEntries with
    | none => simp at hf
    | some es =>
      exact walkEntries_binary_zero _ rootDir [] es f hf hbin
  refine ⟨hmem, ?_⟩
  simp only [scan]
  cases rootEntries with
  | none => simp [sortBy]
  | some es =>
    exact sortBy_binary_sum _ (walkEntries_binary_zero _ rootDir [] es)

/-- Witness for C7 at a concrete scan containing one binary file. -/
theorem claim7_witness :
    (⟨"r/img.png".data, "img.png".data, "img.png".data, ".png".data,
      2000, 0, true⟩ : FileRecord).tokens = 0 :=
  (claim7_binary_zero_tokens "r".data
      (some [.file "img.png".data (some 2000) (some 8)]) none none true).1
    _ (by decide) (by decide)

/-! ## C6 — ordering of the final suggestions list -/

theorem suggLE_trans (a b c : Suggestion) (hab : suggLE a b = true)
    (hbc : suggLE b c = true) : suggLE a c = true := by
  simp only [suggLE, Bool.or_eq_true, Bool.and_eq_true, decide_eq_true_eq,
    beq_iff_eq] at hab hbc ⊢
  omega

theorem suggLE_total (a b : Suggestion) :
    suggLE a b = true ∨ suggLE b a = true := by
  simp only [suggLE, Bool.or_eq_true, Bool.and_eq_true, decide_eq_true_eq,
    beq_iff_eq]
  omega

/-- C6: in every analysis result, the suggestions list is sorted primarily
by ascending priority-tier index and, within equal tiers, by non-increasing
token savings. -/
theorem claim6_suggestions_sorted (sr : ScanResult) :
    (analyze sr).suggestions.Pairwise fun a b =>
      priorityOrder a.priority < priorityOrder b.priority ∨
        (priorityOrder a.priority = priorityOrder b.priority ∧
          b.tokenSavings ≤ a.tokenSavings) := by
  have h := pairwise_sortBy suggLE suggLE_trans suggLE_total
    ((analyzeState sr.files).suggestions.map Prod.snd)
  simp only [analyze]
  refine h.imp ?_
  intro a b hab
  simp only [suggLE, Bool.or_eq_true, Bool.and_eq_true, decide_eq_true_eq,
    beq_iff_eq] at hab
  omega

/-! ## C8 — token conservation -/

theorem bloat_sum_le (files : List FileRecord) (s0 : AState) :
    ((files.foldl analyzeStep s0).bloatFiles.map fun b => b.file.tokens).sum
      ≤ ((s0.bloatFiles.map fun b => b.file.tokens).sum) +
        ((files.map FileRecord.tokens).sum) := by
  induction files generalizing s0 with
  | nil => simp
  | cons f fs ih =>
    simp only [List.foldl_cons, List.map_cons, List.sum_cons]
    refine le_trans (ih (analyzeStep s0 f)) ?_
    have hstep : (((analyzeStep s0 f).bloatFiles.map
        fun b => b.file.tokens).sum) ≤
        ((s0.bloatFiles.map fun b => b.file.tokens).sum) + f.tokens := by
      cases hfm : firstMatch BLOAT_PATTERNS f.relPath with
      | some p =>
        obtain ⟨i, bp⟩ := p
        simp [analyzeStep, hfm]
      | none =>
        simp only [analyzeStep, hfm]
        split <;> simp
    omega

theorem scan_totalTokens (rootDir : List Char)
    (rootEntries : Option (List FSEntry))
    (ci gi : Option (List (List Char))) (rg : Bool) :
    (scan rootDir rootEntries ci gi rg).totalTokens =
      ((scan rootDir rootEntries ci gi rg).files.map FileRecord.tokens).sum
    := by
  simp only [scan]
  exact (((sortBy_perm tokensDesc _).map FileRecord.tokens).sum_eq).symm

/-- C8: for every analysis produced from a scan, the grand token total
equals bloat plus clean exactly, as integers with no rounding, and the
clean total is never negative. -/
theorem claim8_token_conservation (rootDir : List Char)
    (rootEntries : Option (List FSEntry))
    (ci gi : Option (List (List Char))) (rg : Bool) :
    ((analyze (scan rootDir rootEntries ci gi rg)).totalTokens : Int) =
      (analyze (scan rootDir rootEntries ci gi rg)).bloatTokens +
        (analyze (scan rootDir rootEntries ci gi rg)).cleanTokens ∧
    0 ≤ (analyze (scan rootDir rootEntries ci gi rg)).cleanTokens := by
  have hble : ((analyzeState
        (scan rootDir rootEntries ci gi rg).files).bloatFiles.map
          fun b => b.file.tokens).sum ≤
      (scan rootDir rootEntries ci gi rg).totalTokens := by
    rw [scan_totalTokens]
    have h1 := bloat_sum_le (scan rootDir rootEntries ci gi rg).files
      ⟨[], [], []⟩
    simpa [analyzeState] using h1
  constructor
  · simp only [analyze]
    omega
  · simp only [analyze]
    omega

/-! ## C5 — first-match classification and per-rule aggregation -/

theorem lookupSugg_bumpSugg_self (l : List (Nat × Suggestion)) (i : Nat)
    (init : Suggestion) (t : Nat) :
    lookupSugg (bumpSugg i init t l) i =
      some (match lookupSugg l i with
        | some s => { s with tokenSavings := s.tokenSavings + t,
                             fileCount := s.fileCount + 1 }
        | none => { init with tokenSavings := init.tokenSavings + t,
                              fileCount := init.fileCount + 1 }) := by
  induction l with
  | nil => simp [bumpSugg, lookupSugg]
  | cons p rest ih =>
    obtain ⟨k, s⟩ := p
    by_cases hk : k = i
    · subst hk
      simp [bumpSugg, lookupSugg]
    · simp [bumpSugg, lookupSugg, hk, ih]

theorem lookupSugg_bumpSugg_other (l : List (Nat × Suggestion))
    (i j : Nat) (hij : ¬ j = i) (init : Suggestion) (t : Nat) :
    lookupSugg (bumpSugg i init t l) j = lookupSugg l j := by
  induction l with
  | nil =>
    simp only [bumpSugg, lookupSugg]
    rw [if_neg (fun h => hij h.symm)]
  | cons p rest ih =>
    obtain ⟨k, s⟩ := p
    by_cases hk : k = i
    · subst hk
      simp only [bumpSugg, lookupSugg, if_pos rfl]
      rw [if_neg (fun h => hij h.symm), if_neg (fun h => hij h.symm)]
    · by_cases hkj : k = j
      · subst hkj
        simp [bumpSugg, lookupSugg, hk]
      · simp [bumpSugg, lookupSugg, hk, hkj, ih]

theorem contributingSet_cons_nomatch {f : FileRecord}
    {fs : List FileRecord} {i : Nat}
    (hfm : firstMatch BLOAT_PATTERNS f.relPath = none) :
    contributingSet (f :: fs) i = contributingSet fs i := by
  simp [contributingSet, List.filter_cons, hfm]

theorem contributingSet_cons_match {f : FileRecord} {fs : List FileRecord}
    {j : Nat} {bp : BloatRule}
    (hfm : firstMatch BLOAT_PATTERNS f.relPath = some (j, bp)) :
    contributingSet (f :: fs) j = f :: contributingSet fs j := by
  simp [contributingSet, List.filter_cons, hfm]

theorem contributingSet_cons_match_other {f : FileRecord}
    {fs : List FileRecord} {i j : Nat} {bp : BloatRule}
    (hfm : firstMatch BLOAT_PATTERNS f.relPath = some (j, bp))
    (hji : ¬ j = i) :
    contributingSet (f :: fs) i = contributingSet fs i := by
  simp [contributingSet, List.filter_cons, hfm, hji]

theorem foldl_suggestions_spec (files : List FileRecord) (s0 : AState)
    (i : Nat) :
    (lookupSugg (files.foldl analyzeStep s0).suggestions i).map
        (fun s => (s.tokenSavings, s.fileCount)) =
      match lookupSugg s0.suggestions i with
      | some s =>
        some (s.tokenSavings +
            ((contributingSet files i).map FileRecord.tokens).sum,
          s.fileCount + (contributingSet files i).length)
      | none =>
        if contributingSet files i = [] then none
        else
          some (((contributingSet files i).map FileRecord.tokens).sum,
            (contributingSet files i).length) := by
  induction files generalizing s0 with
  | nil =>
    simp only [List.foldl_nil, contributingSet, List.filter_nil]
    cases lookupSugg s0.suggestions i <;> simp
  | cons f fs ih =>
    simp only [List.foldl_cons]
    rw [ih (analyzeStep s0 f)]
    cases hfm : firstMatch BLOAT_PATTERNS f.relPath with
    | none =>
      have hsugg : (analyzeStep s0 f).suggestions = s0.suggestions := by
        simp only [analyzeStep, hfm]
        split <;> rfl
      rw [hsugg, contributingSet_cons_nomatch hfm]
    | some p =>
      obtain ⟨j, bp⟩ := p
      have hsugg : (analyzeStep s0 f).suggestions =
          bumpSugg j ⟨getIgnorePattern f.relPath bp, bp.reason,
            bp.category, bp.priority, 0, 0⟩ f.tokens s0.suggestions := by
        simp [analyzeStep, hfm]
      rw [hsugg]
      by_cases hji : j = i
      · subst hji
        rw [contributingSet_cons_match hfm, lookupSugg_bumpSugg_self]
        cases hl : lookupSugg s0.suggestions j with
        | some s =>
          simp only [hl, List.map_cons, List.sum_cons, List.length_cons,
            Option.map_some', Option.some.injEq, Prod.mk.injEq]
          omega
        | none =>
          rw [if_neg (List.cons_ne_nil f (contributingSet fs j))]
          simp only [hl, List.map_cons, List.sum_cons, List.length_cons,
            Option.map_some', Option.some.injEq, Prod.mk.injEq]
          omega
      · rw [contributingSet_cons_match_other hfm hji,
          lookupSugg_bumpSugg_other s0.suggestions j i
            (fun h => hji h.symm)]

theorem foldl_bloatFiles (files : List FileRecord) (s0 : AState) :
    (files.foldl analyzeStep s0).bloatFiles =
      s0.bloatFiles ++ files.filterMap fun f =>
        (firstMatch BLOAT_PATTERNS f.relPath).map fun p =>
          ⟨f, p.2.reason, p.2.category⟩ := by
  induction files generalizing s0 with
  | nil => simp
  | cons f fs ih =>
    simp only [List.foldl_cons, List.filterMap_cons]
    rw [ih (analyzeStep s0 f)]
    cases hfm : firstMatch BLOAT_PATTERNS f.relPath with
    | none =>
      have hbf : (analyzeStep s0 f).bloatFiles = s0.bloatFiles := by
        simp only [analyzeStep, hfm]
        split <;> rfl
      rw [hbf]
      rfl
    | some p =>
      obtain ⟨j, bp⟩ := p
      have hbf : (analyzeStep s0 f).bloatFiles =
          s0.bloatFiles ++ [⟨f, bp.reason, bp.category⟩] := by
        simp [analyzeStep, hfm]
      rw [hbf]
      simp

/-- C5: the classifier's first-match discipline: `bloatFiles` records each
file at most once, tagged with the reason and category of its first matching
rule; each suggestion's `tokenSavings` and `fileCount` aggregate exactly the
rule's contributing set (the files whose first match is that rule); and
contributing sets of distinct rules are disjoint, so no file contributes to
more than one suggestion and no file appears in more than one category. -/
theorem claim5_first_match_exclusive (files : List FileRecord) :
    ((analyzeState files).bloatFiles = files.filterMap fun f =>
        (firstMatch BLOAT_PATTERNS f.relPath).map fun p =>
          ⟨f, p.2.reason, p.2.category⟩) ∧
    (∀ i, (lookupSugg (analyzeState files).suggestions i).map
          (fun s => (s.tokenSavings, s.fileCount)) =
        if contributingSet files i = [] then none
        else some (((contributingSet files i).map FileRecord.tokens).sum,
          (contributingSet files i).length)) ∧
    (∀ f i j, f ∈ contributingSet files i → f ∈ contributingSet files j →
      i = j) := by
  refine ⟨?_, ?_, ?_⟩
  · rw [analyzeState, foldl_bloatFiles]
    rfl
  · intro i
    rw [analyzeState, foldl_suggestions_spec]
    rfl
  · intro f i j hi hj
    simp only [contributingSet, List.mem_filter, decide_eq_true_eq] at hi hj
    have hij := hi.2.symm.trans hj.2
    exact Option.some.inj hij

/-! ## C4 — pruning correctness -/

theorem contains_false_not_mem {c : Char} {l : List Char}
    (h : (!l.contains c) = true) : c ∉ l := by
  intro hm
  simp_all

/-- If `a` is an ancestor-or-self boundary prefix of a single separator-free
segment `n`, then `a` is `n` itself. -/
theorem ancestor_of_segment {n : List Char} (hn : '/' ∉ n) :
    ∀ {a : List Char}, a ++ ['/'] <+: n ++ ['/'] → a = n := by
  induction n with
  | nil =>
    intro a h
    cases a with
    | nil => rfl
    | cons b t =>
      have hl := h.length_le
      simp at hl
  | cons c n' ih =>
    intro a h
    have hn' : '/' ∉ n' := fun hm => hn (List.mem_cons_of_mem c hm)
    cases a with
    | nil =>
      rw [List.nil_append, List.cons_append, List.cons_prefix_cons] at h
      exact absurd (h.1 ▸ List.mem_cons_self c n') hn
    | cons b t =>
      rw [List.cons_append, List.cons_append, List.cons_prefix_cons] at h
      rw [h.1, ih hn' h.2]

/-- Boundary prefixes of `q ++ "/" ++ n` for a separator-free last segment
`n` are either boundary prefixes of `q` or the whole path. -/
theorem ancestor_split {n : List Char} (hn : '/' ∉ n) :
    ∀ (q : List Char) {a : List Char},
      a ++ ['/'] <+: (q ++ '/' :: n) ++ ['/'] →
      a ++ ['/'] <+: q ++ ['/'] ∨ a = q ++ '/' :: n := by
  intro q
  induction q with
  | nil =>
    intro a h
    cases a with
    | nil => left; simp
    | cons b t =>
      simp only [List.nil_append, List.cons_append,
        List.cons_prefix_cons] at h
      right
      rw [List.nil_append, h.1, ancestor_of_segment hn h.2]
  | cons c q' ih =>
    intro a h
    cases a with
    | nil =>
      left
      simp only [List.nil_append, List.cons_append,
        List.cons_prefix_cons] at h ⊢
      exact ⟨h.1, List.nil_prefix⟩
    | cons b t =>
      simp only [List.cons_append, List.cons_prefix_cons] at h
      rcases ih h.2 with hl | hr
      · left
        simp only [List.cons_append, List.cons_prefix_cons]
        exact ⟨h.1, hl⟩
      · right
        simp only [List.cons_append]
        rw [h.1, hr]

mutual

theorem walkEntry_no_ignored_ancestor (pats : List (List Char))
    (rootDir parentRel : List Char)
    (hinv : parentRel = [] ∨
      ∀ a, a ++ ['/'] <+: parentRel ++ ['/'] → isIgnored a pats = false) :
    ∀ (e : FSEntry), entryNamesOk e = true →
      ∀ f ∈ (walkEntry pats rootDir parentRel e).files,
        ∀ a, a ++ ['/'] <+: f.relPath → isIgnored a pats = false
  | .file name st ct => by
    intro hok f hf a ha
    by_cases hig : isIgnored (childRel parentRel name) pats = true
    · simp [walkEntry, hig] at hf
    · simp [walkEntry, hig] at hf
      subst hf
      have hn : '/' ∉ name :=
        contains_false_not_mem (by simpa [entryNamesOk] using hok)
      have ha2 : a ++ ['/'] <+: childRel parentRel name := ha
      by_cases hpe : parentRel = []
      · have hcr : childRel parentRel name = name := by
          simp [childRel, hpe]
        rw [hcr] at ha2
        exact absurd (ha2.subset (by simp)) hn
      · have hcr : childRel parentRel name = parentRel ++ '/' :: name := by
          simp [childRel, hpe]
        rw [hcr] at ha2
        have hax : a ++ ['/'] <+: (parentRel ++ '/' :: name) ++ ['/'] :=
          ha2.trans (List.prefix_append _ _)
        rcases ancestor_split hn parentRel hax with hl | hr
        · rcases hinv with h1 | h2
          · exact absurd h1 hpe
          · exact h2 a hl
        · exfalso
          have hle := ha2.length_le
          rw [hr] at hle
          simp at hle
  | .dir name none => by
    intro hok f hf a ha
    by_cases hig : isIgnored (childRel parentRel name) pats = true <;>
      simp [walkEntry, hig] at hf
  | .dir name (some es) => by
    intro hok f hf a ha
    rw [entryNamesOk, Bool.and_eq_true] at hok
    by_cases hig : isIgnored (childRel parentRel name) pats = true
    · simp [walkEntry, hig] at hf
    · simp only [walkEntry, hig, Bool.false_eq_true, if_false] at hf
      have hn : '/' ∉ name := contains_false_not_mem hok.1
      have hig' : isIgnored (childRel parentRel name) pats = false := by
        simpa using hig
      have hinv' : childRel parentRel name = [] ∨
          ∀ b, b ++ ['/'] <+: childRel parentRel name ++ ['/'] →
            isIgnored b pats = false := by
        right
        intro b hb
        by_cases hpe : parentRel = []
        · have hcr : childRel parentRel name = name := by
            simp [childRel, hpe]
          rw [hcr] at hb
          rw [ancestor_of_segment hn hb, ← hcr]
          exact hig'
        · have hcr : childRel parentRel name =
              parentRel ++ '/' :: name := by
            simp [childRel, hpe]
          rw [hcr] at hb
          rcases ancestor_split hn parentRel hb with hl | hr
          · rcases hinv with h1 | h2
            · exact absurd h1 hpe
            · exact h2 b hl
          · rw [hr, ← hcr]
            exact hig'
      exact walkEntries_no_ignored_ancestor pats rootDir
        (childRel parentRel name) hinv' es hok.2 f (by simpa using hf) a ha
  | .other name => by
    intro hok f hf a ha
    by_cases hig : isIgnored (childRel parentRel name) pats = true <;>
      simp [walkEntry, hig] at hf

theorem walkEntries_no_ignored_ancestor (pats : List (List Char))
    (rootDir parentRel : List Char)
    (hinv : parentRel = [] ∨
      ∀ a, a ++ ['/'] <+: parentRel ++ ['/'] → isIgnored a pats = false) :
    ∀ (es : List FSEntry), entriesNamesOk es = true →
      ∀ f ∈ (walkEntries pats rootDir parentRel es).files,
        ∀ a, a ++ ['/'] <+: f.relPath → isIgnored a pats = false
  | [] => by
    intro hok f hf
    simp [walkEntries] at hf
  | e :: rest => by
    intro hok f hf a ha
    rw [entriesNamesOk, Bool.and_eq_true] at hok
    unfold walkEntries at hf
    simp only [List.mem_append] at hf
    rcases hf with hf | hf
    · exact walkEntry_no_ignored_ancestor pats rootDir parentRel hinv e
        hok.1 f hf a ha
    · exact walkEntries_no_ignored_ancestor pats rootDir parentRel hinv
        rest hok.2 f hf a ha

end

/-- C4: pruning correctness: in a scan of a well-formed tree (entry names
never contain the separator), no recorded FileRecord's relative path has an
ancestor directory that matches any rule of the combined rule set. -/
theorem claim4_pruning (rootDir : List Char) (es : List FSEntry)
    (ci gi : Option (List (List Char))) (rg : Bool)
    (hok : entriesNamesOk es = true) :
    ∀ f ∈ (scan rootDir (some es) ci gi rg).files,
      ∀ a, a ++ ['/'] <+: f.relPath →
        isIgnored a (combinedPatterns ci gi rg) = false := by
  intro f hf a ha
  simp only [scan] at hf
  rw [mem_sortBy] at hf
  exact walkEntries_no_ignored_ancestor (combinedPatterns ci gi rg) rootDir
    [] (Or.inl rfl) es hok f hf a ha

/-- Witness for C4 at a concrete two-level tree: the recorded file
`src/a.txt` has ancestor `src`, which no combined rule matches. -/
theorem claim4_witness :
    entriesNamesOk [.dir "src".data
        (some [.file "a.txt".data (some 4) (some 4)])] = true ∧
    isIgnored "src".data
      (combinedPatterns (some ["node_modules".data]) none true) = false :=
  ⟨by decide,
    claim4_pruning "r".data
      [.dir "src".data (some [.file "a.txt".data (some 4) (some 4)])]
      (some ["node_modules".data]) none true (by decide)
      ⟨"r/src/a.txt".data, "src/a.txt".data, "a.txt".data, ".txt".data,
        4, 1, false⟩ (by decide) "src".data (by decide)⟩

/-- Witness for C5: one file under `node_modules` contributes to the
suggestion of rule 0 and to no other. -/
theorem claim5_witness :
    (⟨"r/node_modules/x.js".data, "node_modules/x.js".data, "x.js".data,
      ".js".data, 500, 125, false⟩ : FileRecord) ∈
        contributingSet ([⟨"r/node_modules/x.js".data,
          "node_modules/x.js".data, "x.js".data, ".js".data, 500, 125,
          false⟩] : List FileRecord) 0 ∧
    (0 : Nat) = 0 :=
  ⟨by decide,
    (claim5_first_match_exclusive ([⟨"r/node_modules/x.js".data,
        "node_modules/x.js".data, "x.js".data, ".js".data, 500, 125,
        false⟩] : List FileRecord)).2.2
      ⟨"r/node_modules/x.js".data, "node_modules/x.js".data, "x.js".data,
        ".js".data, 500, 125, false⟩ 0 0 (by decide) (by decide)⟩

end ContextPack
